import Mathlib

/-!
# Shallow embedding of the @skyra/gifenc GIF encoder

This file embeds the TypeScript sources `src/lib/LZWEncoder.ts`,
`src/lib/NeuQuant.ts` and `src/lib/GifEncoder.ts` into Lean and proves
properties of the embedded program.

Modelling conventions:
* JavaScript numbers that only ever hold (small) integers are modelled as `ℕ`
  or `ℤ`; 32-bit coercions (`ToInt32`, `ToUint8`) are written out explicitly
  where the source relies on them, via `truncQ`, `asr` and `byteOfQ`.
* The quantizer keeps its network in a `Float64Array`.  Its values are
  modelled as exact rationals (`ℚ`).  On the inputs that the concrete
  theorems below evaluate, every float64 operation the source performs is
  exact (dyadic values well inside 53 bits), so the rational model agrees
  with the float semantics there; the structural theorems (lengths, which
  entries are written where, which array cells are touched) do not depend on
  the numeric values at all.
* Typed-array stores that the source performs out of bounds are silently
  dropped, exactly as JavaScript does; out-of-range reads yield `undefined`,
  which the code paths below coerce to `0` (`List.getD _ _ 0`).
* `ByteBuffer` is an append-only byte sink; it is modelled as a `List ℕ` of
  written bytes.
* Loops whose bound is not structural are driven by an explicit fuel that is
  always sufficient for the loop's real bound (noted at each definition), so
  that every definition is a computable structural recursion.
-/

namespace Gifenc

/-- Truncation toward zero of a rational: JS `ToInt32` for in-range values. -/
def truncQ (q : ℚ) : ℤ := Int.tdiv q.num (q.den : ℤ)

/-- Arithmetic shift right on integers (JS `>>` on an int32): floor division
by a power of two. -/
def asr (z : ℤ) (n : ℕ) : ℤ := Int.fdiv z (2 ^ n)

/-- JS `>>` applied to a float64 variable: `ToInt32`, then arithmetic shift. -/
def jsShr (q : ℚ) (n : ℕ) : ℤ := asr (truncQ q) n

/-- Store a JS number into an unsigned byte cell (`ToUint8`): truncate toward
zero, then reduce mod 256. -/
def byteOfQ (q : ℚ) : ℕ := ((truncQ q).emod 256).toNat

/-!
## LZW encoder (`src/lib/LZWEncoder.ts`)

The encoder state collects every instance field of class `LZWEncoder` that
the `encode` entry point touches, plus a ghost field `trace` that records
each code passed to `processOutput` (the bit packer); `trace` is written
nowhere else and read by nothing, it only instruments the embedding.
-/

/-- `BITS = 12`. -/
def BITS : ℕ := 12

/-- `HASH_SIZE = 5003`. -/
def HASH_SIZE : ℕ := 5003

/-- The `masks` table of `LZWEncoder.ts`. -/
def masks : List ℕ :=
  [0x0000, 0x0001, 0x0003, 0x0007, 0x000f, 0x001f, 0x003f, 0x007f, 0x00ff,
   0x01ff, 0x03ff, 0x07ff, 0x0fff, 0x1fff, 0x3fff, 0x7fff, 0xffff]

/-- State of one `LZWEncoder` run.  `accum` is `accumulators[0..accumulator)`,
`out` is the byte buffer contents written so far, `code` is the loop variable
holding the current prefix code. -/
structure LZWState where
  curAcc : ℕ
  curBits : ℕ
  accum : List ℕ
  out : List ℕ
  firstUnusedEntry : ℕ
  maximumCode : ℕ
  bitSize : ℕ
  clearFlag : Bool
  globalInitialBits : ℕ
  clearCode : ℕ
  eofCode : ℕ
  code : ℕ
  hashes : List ℤ
  codes : List ℕ
  trace : List ℕ
  deriving Repr

/-- `flushPacket`: write the length byte and the accumulated sub-block. -/
def flushPacket (s : LZWState) : LZWState :=
  if s.accum.isEmpty then s
  else { s with out := s.out ++ s.accum.length :: s.accum, accum := [] }

/-- `addCharacter`: append one byte to the packet, flushing at 254. -/
def addCharacter (c : ℕ) (s : LZWState) : LZWState :=
  let s1 := { s with accum := s.accum ++ [c] }
  if 254 ≤ s1.accum.length then flushPacket s1 else s1

/-- `getMaximumCode`. -/
def getMaximumCode (size : ℕ) : ℕ := (1 <<< size) - 1

/-- The `while (currentBits >= 8)` loop of `processOutput`.  The fuel is the
entry value of `curBits`, which bounds the iteration count (each pass removes
8 bits). -/
def drain8 : ℕ → LZWState → LZWState
  | 0, s => s
  | fuel + 1, s =>
      if 8 ≤ s.curBits then
        let s1 := addCharacter (s.curAcc &&& 255) s
        drain8 fuel { s1 with curAcc := s1.curAcc >>> 8, curBits := s1.curBits - 8 }
      else s

/-- The `while (currentBits > 0)` drain after `eof_code`.  Fuel as in
`drain8`.  JS lets `currentBits` go negative on the last pass; a saturating
`ℕ` subtraction exits the loop at the same iteration. -/
def drainRest : ℕ → LZWState → LZWState
  | 0, s => s
  | fuel + 1, s =>
      if 0 < s.curBits then
        let s1 := addCharacter (s.curAcc &&& 255) s
        drainRest fuel { s1 with curAcc := s1.curAcc >>> 8, curBits := s1.curBits - 8 }
      else s

/-- The code-size growth check at the end of `processOutput`. -/
def adjustBits (s : LZWState) : LZWState :=
  if s.maximumCode < s.firstUnusedEntry ∨ s.clearFlag then
    if s.clearFlag then
      { s with bitSize := s.globalInitialBits,
               maximumCode := getMaximumCode s.globalInitialBits,
               clearFlag := false }
    else
      let b := s.bitSize + 1
      { s with bitSize := b,
               maximumCode := if b = BITS then 1 <<< BITS else getMaximumCode b }
  else s

/-- `processOutput`: pack `codeArg` into the bit accumulator, drain whole
bytes, grow the code size, and at `eof_code` flush everything. -/
def processOutput (codeArg : ℕ) (s : LZWState) : LZWState :=
  let acc0 := s.curAcc &&& masks.getD s.curBits 0
  let acc1 := if 0 < s.curBits then acc0 ||| (codeArg <<< s.curBits) else codeArg
  let s1 := { s with curAcc := acc1, curBits := s.curBits + s.bitSize,
                     trace := s.trace ++ [codeArg] }
  let s2 := drain8 s1.curBits s1
  let s3 := adjustBits s2
  if codeArg = s3.eofCode then flushPacket (drainRest s3.curBits s3) else s3

/-- `clearCodeTable`: reset the dictionary and emit a clear code. -/
def clearCodeTable (s : LZWState) : LZWState :=
  let s1 := { s with hashes := List.replicate HASH_SIZE (-1),
                     firstUnusedEntry := s.clearCode + 2,
                     clearFlag := true }
  processOutput s1.clearCode s1

/-- The `do { … } while (hashes[i] >= 0)` secondary probe.  One fuel unit per
visited slot; `HASH_SIZE` fuel always suffices in reachable states because the
table keeps at least one empty slot (at most `4096 − 256` entries are ever
inserted between clears). -/
def probeLoop (hashes : List ℤ) (hash : ℕ) (d : ℕ) : ℕ → ℕ → Bool × ℕ
  | _, 0 => (false, 0)
  | i, fuel + 1 =>
      let j := (i + (HASH_SIZE - d)) % HASH_SIZE
      if hashes.getD j (-1) = (hash : ℤ) then (true, j)
      else if 0 ≤ hashes.getD j (-1) then probeLoop hashes hash d j fuel
      else (false, j)

/-- The miss path of the main loop: emit the pending prefix, restart the
string from `c`, and either insert the new string or clear the table. -/
def missPath (s : LZWState) (c : ℕ) (hash : ℕ) (j : ℕ) : LZWState :=
  let s1 := processOutput s.code s
  let s2 := { s1 with code := c }
  if s2.firstUnusedEntry < (1 <<< BITS) then
    { s2 with codes := s2.codes.set j s2.firstUnusedEntry,
              hashes := s2.hashes.set j (hash : ℤ),
              firstUnusedEntry := s2.firstUnusedEntry + 1 }
  else clearCodeTable s2

/-- One iteration of the `outerLoop` of `compress` for input symbol `craw`
(`nextPixel` masks every symbol with `0xff`). -/
def lzwStep (s : LZWState) (craw : ℕ) : LZWState :=
  let c := craw &&& 255
  let hash := (c <<< BITS) + s.code
  let i0 := ((c <<< 4) ^^^ s.code) % HASH_SIZE
  if s.hashes.getD i0 (-1) = (hash : ℤ) then { s with code := s.codes.getD i0 0 }
  else if 0 ≤ s.hashes.getD i0 (-1) then
    let d := if i0 = 0 then 1 else HASH_SIZE - i0
    match probeLoop s.hashes hash d i0 HASH_SIZE with
    | (true, j) => { s with code := s.codes.getD j 0 }
    | (false, j) => missPath s c hash j
  else missPath s c hash i0

/-- The state set up at the top of `compress` (before the initial clear code
is emitted).  `p0` is the first pixel (`code = this.nextPixel()`). -/
def compressInit (initialBits : ℕ) (p0 : ℕ) : LZWState :=
  { curAcc := 0, curBits := 0, accum := [], out := [],
    firstUnusedEntry := (1 <<< (initialBits - 1)) + 2,
    maximumCode := getMaximumCode initialBits,
    bitSize := initialBits,
    clearFlag := false,
    globalInitialBits := initialBits,
    clearCode := 1 <<< (initialBits - 1),
    eofCode := (1 <<< (initialBits - 1)) + 1,
    code := p0 &&& 255,
    hashes := List.replicate HASH_SIZE (-1),
    codes := List.replicate HASH_SIZE 0,
    trace := [] }

/-- `compress` for a non-empty pixel stream `p0 :: rest`: emit the initial
clear code, run the main loop, then emit the final prefix and `eof_code`. -/
def lzwCompress (initialBits : ℕ) (p0 : ℕ) (rest : List ℕ) : LZWState :=
  let s0 := compressInit initialBits p0
  let s1 := processOutput s0.clearCode s0
  let s2 := rest.foldl lzwStep s1
  let s3 := processOutput s2.code s2
  processOutput s3.eofCode s3

/-- `encode`: the `init_code_size` byte, the compressed data, and the block
terminator.  `compress` only appends to the shared byte buffer, so running it
on an empty buffer and prepending the first byte yields the same stream. -/
def lzwEncode (colorDepth : ℕ) (p0 : ℕ) (rest : List ℕ) : List ℕ :=
  let initCodeSize := max 2 colorDepth
  initCodeSize :: (lzwCompress (initCodeSize + 1) p0 rest).out ++ [0]

/-- `encode` on a pixel stream given as a plain list.  The encoder always
passes `width·height ≥ 1` pixels; the degenerate empty stream (whose source
behaviour would push the int32 `-1` EOF sentinel through the bit packer) is
represented by the framing bytes alone and is not used by any theorem. -/
def lzwEncodeStream (colorDepth : ℕ) (stream : List ℕ) : List ℕ :=
  match stream with
  | [] => [max 2 colorDepth, 0]
  | p :: rest => lzwEncode colorDepth p rest

/-!
## NeuQuant quantizer (`src/lib/NeuQuant.ts`)
-/

/-- `learningCycles = 100`. -/
def learningCycles : ℕ := 100

/-- `maximumColorsSize = 256`. -/
def maximumColorsSize : ℕ := 256

/-- `maximumColorsPosition = 255`. -/
def maximumColorsPosition : ℕ := maximumColorsSize - 1

/-- `networkBiasShift = 4`. -/
def networkBiasShift : ℕ := 4

/-- `integerBiasShift = 16`. -/
def integerBiasShift : ℕ := 16

/-- `integerBias = 1 << 16`. -/
def integerBias : ℕ := 1 <<< integerBiasShift

/-- `gammaShift = 10`. -/
def gammaShift : ℕ := 10

/-- `betaShift = 10`. -/
def betaShift : ℕ := 10

/-- `beta = integerBias >> betaShift`. -/
def nqBeta : ℤ := (integerBias >>> betaShift : ℕ)

/-- `betaGamma = integerBias << (gammaShift - betaShift)`. -/
def betaGamma : ℤ := (integerBias <<< (gammaShift - betaShift) : ℕ)

/-- `maximumRadius = 256 >> 3`. -/
def maximumRadius : ℕ := maximumColorsSize >>> 3

/-- `initialRadiusBiasShift = 6`. -/
def initialRadiusBiasShift : ℕ := 6

/-- `initialRadiusBias = 1 << 6`. -/
def initialRadiusBias : ℕ := 1 <<< initialRadiusBiasShift

/-- `initialRadius = maximumRadius * initialRadiusBias`. -/
def initialRadius : ℕ := maximumRadius * initialRadiusBias

/-- `initialRadiusDecrement = 30`. -/
def initialRadiusDecrement : ℕ := 30

/-- `alphaBiasShift = 10`. -/
def alphaBiasShift : ℕ := 10

/-- `initialAlpha = 1 << 10`. -/
def initialAlpha : ℕ := 1 <<< alphaBiasShift

/-- `radiusBiasShift = 8`. -/
def radiusBiasShift : ℕ := 8

/-- `radiusBias = 1 << 8`. -/
def radiusBias : ℕ := 1 <<< radiusBiasShift

/-- `alphaRadiusBiasShift = 18`. -/
def alphaRadiusBiasShift : ℕ := alphaBiasShift + radiusBiasShift

/-- `alphaRadiusBias = 1 << 18`. -/
def alphaRadiusBias : ℕ := 1 <<< alphaRadiusBiasShift

/-- `prime1 = 499`. -/
def prime1 : ℕ := 499

/-- `prime2 = 491`. -/
def prime2 : ℕ := 491

/-- `prime3 = 487`. -/
def prime3 : ℕ := 487

/-- `prime4 = 503`. -/
def prime4 : ℕ := 503

/-- `minimumPictureBytes = 3 * prime4 = 1509`. -/
def minimumPictureBytes : ℕ := 3 * prime4

/-- One entry of the `networks` `Float64Array[4]`: three colour coordinates
and the `tag` slot (original index after un-biasing). -/
structure Neuron where
  c0 : ℚ
  c1 : ℚ
  c2 : ℚ
  tag : ℚ
  deriving Repr, DecidableEq

instance : Inhabited Neuron := ⟨⟨0, 0, 0, 0⟩⟩

/-- Mutable state of a `NeuQuant` instance during training.  `visited` is a
ghost trace of the pixel byte offsets read by the learning loop; it is not
part of the source state and nothing reads it. -/
structure NQState where
  networks : List Neuron
  networkIndex : List ℤ
  biases : List ℤ
  frequencies : List ℤ
  radiusPower : List ℤ
  visited : List ℕ
  deriving Repr

/-- `init()` plus the constructor's array allocations: `networks[i]` is
`(v, v, v, 0)` with `v = (i << 12) / 256` (exact in float64),
`frequencies[i] = integerBias / 256`, `biases[i] = 0`. -/
def nqInit : NQState :=
  { networks := (List.range maximumColorsSize).map (fun i =>
      let v : ℚ := ((i <<< (networkBiasShift + 8) : ℕ) : ℚ) / (maximumColorsSize : ℚ)
      ⟨v, v, v, 0⟩),
    networkIndex := List.replicate maximumColorsSize 0,
    biases := List.replicate maximumColorsSize 0,
    frequencies := List.replicate maximumColorsSize ((integerBias / maximumColorsSize : ℕ) : ℤ),
    radiusPower := List.replicate (maximumColorsSize >>> 3) 0,
    visited := [] }

/-- `contest(b, g, r)`: find the best and best-bias neurons, age every
neuron's frequency and bias, boost the winner, return the best-bias
position.  `~(1 << 31) = 2147483647` is the initial best distance. -/
def contest (b g r : ℚ) (st : NQState) : ℕ × NQState :=
  let init : ℚ := ((2147483647 : ℤ) : ℚ)
  let res := (List.range maximumColorsSize).foldl
    (fun (acc : ℚ × ℤ × ℚ × ℤ × List ℤ × List ℤ) i =>
      let (bestD, bestPos, bestBiasD, bestBiasPos, biases, freqs) := acc
      let n := st.networks.getD i default
      let dist := |n.c0 - b| + |n.c1 - g| + |n.c2 - r|
      let (bestD1, bestPos1) := if dist < bestD then (dist, (i : ℤ)) else (bestD, bestPos)
      let biasDist := dist - ((asr (biases.getD i 0) (integerBiasShift - networkBiasShift) : ℤ) : ℚ)
      let (bestBiasD1, bestBiasPos1) :=
        if biasDist < bestBiasD then (biasDist, (i : ℤ)) else (bestBiasD, bestBiasPos)
      let betaFreq := asr (freqs.getD i 0) betaShift
      (bestD1, bestPos1, bestBiasD1, bestBiasPos1,
       biases.set i (biases.getD i 0 + betaFreq * ((1 <<< gammaShift : ℕ) : ℤ)),
       freqs.set i (freqs.getD i 0 - betaFreq)))
    (init, -1, init, -1, st.biases, st.frequencies)
  let bp := res.2.1.toNat
  (res.2.2.2.1.toNat,
   { st with biases := res.2.2.2.2.1.set bp (res.2.2.2.2.1.getD bp 0 - betaGamma),
             frequencies := res.2.2.2.2.2.set bp (res.2.2.2.2.2.getD bp 0 + nqBeta) })

/-- `alterSingle(alpha, i, b, g, r)`. -/
def alterSingle (alpha : ℚ) (i : ℕ) (b g r : ℚ) (nets : List Neuron) : List Neuron :=
  let n := nets.getD i default
  nets.set i ⟨n.c0 - alpha * (n.c0 - b) / (initialAlpha : ℚ),
              n.c1 - alpha * (n.c1 - g) / (initialAlpha : ℚ),
              n.c2 - alpha * (n.c2 - r) / (initialAlpha : ℚ), n.tag⟩

/-- One neighbour update of `alterNeighbors`. -/
def neighborUpd (a b g r : ℚ) (idx : ℕ) (nets : List Neuron) : List Neuron :=
  let n := nets.getD idx default
  nets.set idx ⟨n.c0 - a * (n.c0 - b) / (alphaRadiusBias : ℚ),
               n.c1 - a * (n.c1 - g) / (alphaRadiusBias : ℚ),
               n.c2 - a * (n.c2 - r) / (alphaRadiusBias : ℚ), n.tag⟩

/-- The `while (j < hi || k > lo)` walk of `alterNeighbors`.  Every pass moves
`j` up or `k` down, so `2·rad + 2` fuel (supplied by the caller) always
covers the real iteration count. -/
def alterNeighborsLoop (b g r : ℚ) (rp : List ℤ) (hi lo : ℤ) :
    ℕ → ℤ → ℤ → ℕ → List Neuron → List Neuron
  | 0, _, _, _, nets => nets
  | fuel + 1, j, k, m, nets =>
      if j < hi ∨ lo < k then
        let a : ℚ := ((rp.getD m 0 : ℤ) : ℚ)
        let s1 : List Neuron × ℤ :=
          if j < hi then (neighborUpd a b g r j.toNat nets, j + 1) else (nets, j)
        let s2 : List Neuron × ℤ :=
          if lo < k then (neighborUpd a b g r k.toNat s1.1, k - 1) else (s1.1, k)
        alterNeighborsLoop b g r rp hi lo fuel s1.2 s2.2 (m + 1) s2.1
      else nets

/-- `alterNeighbors(rad, i, b, g, r)`: `lo = |i − rad|`,
`hi = min(i + rad, 256)`, walk outwards with `m` starting at 1. -/
def alterNeighbors (rad : ℕ) (i : ℕ) (b g r : ℚ) (rp : List ℤ)
    (nets : List Neuron) : List Neuron :=
  let lo : ℤ := |(i : ℤ) - rad|
  let hi : ℤ := min ((i : ℤ) + rad) (maximumColorsSize : ℤ)
  alterNeighborsLoop b g r rp hi lo (2 * rad + 2) ((i : ℤ) + 1) ((i : ℤ) - 1) 1 nets

/-- The `radiusPower[i] = alpha·(((rad²−i²)·radiusBias)/rad²)` loop (stores
to an `Int32Array`, hence `truncQ`). -/
def computeRadiusPower (rp : List ℤ) (alpha : ℚ) (rad : ℕ) : List ℤ :=
  (List.range rad).foldl
    (fun l i =>
      l.set i (truncQ (alpha * ((((rad * rad - i * i : ℕ) : ℚ) * (radiusBias : ℚ)) /
        ((rad * rad : ℕ) : ℚ)))))
    rp

/-- The step selection of `learn()`.  If the input is shorter than
`minimumPictureBytes` the step is 3 (the accompanying dead store
`sampleFactorial = 1` changes nothing else in `learn`: both
`alphaDecrement` and `samplePixels` were computed before it). -/
def nqStep (len : ℕ) : ℕ :=
  if len < minimumPictureBytes then 3
  else if len % prime1 ≠ 0 then 3 * prime1
  else if len % prime2 ≠ 0 then 3 * prime2
  else if len % prime3 ≠ 0 then 3 * prime3
  else 3 * prime4

/-- `samplePixels = length / (3 * sampleFactorial)`, computed from the
caller's sample factor (before the short-input override). -/
def nqSamplePixels (len sf : ℕ) : ℚ := (len : ℚ) / ((3 * sf : ℕ) : ℚ)

/-- `alphaDecrement = 30 + (sampleFactorial − 1) / 3` (float division). -/
def nqAlphaDecrement (sf : ℕ) : ℚ := 30 + ((sf : ℚ) - 1) / 3

/-- `delta = ~~(samplePixels / learningCycles)`. -/
def nqDelta (len sf : ℕ) : ℤ := truncQ (nqSamplePixels len sf / (learningCycles : ℚ))

/-- The effective `delta`: the loop replaces 0 by 1 before every use. -/
def nqEffDelta (len sf : ℕ) : ℕ :=
  if nqDelta len sf = 0 then 1 else (nqDelta len sf).toNat

/-- The number of iterations of `while (i < samplePixels)` with an integer
counter `i` starting at 0: the ceiling of `samplePixels`.  (`samplePixels`
is a float64 in the source; rounding the quotient to the nearest float64
never crosses an integer boundary for the magnitudes involved, so the
iteration count is exactly this ceiling.) -/
def nqTrainCount (len sf : ℕ) : ℕ := ⌈nqSamplePixels len sf⌉.toNat

/-- The body of the learning loop, iterated `nqTrainCount` times (the fuel is
exactly the iteration count of the source's `while`).  Carries
`(alpha, radius, rad, pixelPosition, i)` alongside the array state. -/
def learnLoop (pixels : List ℕ) (sf step len : ℕ) :
    ℕ → NQState → ℚ → ℚ → ℕ → ℕ → ℕ → NQState
  | 0, st, _, _, _, _, _ => st
  | fuel + 1, st, alpha, radius, rad, pos, i =>
      let b : ℚ := ((((pixels.getD pos 0) &&& 255) <<< networkBiasShift : ℕ) : ℚ)
      let g : ℚ := ((((pixels.getD (pos + 1) 0) &&& 255) <<< networkBiasShift : ℕ) : ℚ)
      let r : ℚ := ((((pixels.getD (pos + 2) 0) &&& 255) <<< networkBiasShift : ℕ) : ℚ)
      let cres := contest b g r st
      let j := cres.1
      let st1 := cres.2
      let nets1 := alterSingle alpha j b g r st1.networks
      let nets2 := if rad ≠ 0 then alterNeighbors rad j b g r st1.radiusPower nets1 else nets1
      let st2 := { st1 with networks := nets2, visited := st1.visited ++ [pos] }
      let pos1 := pos + step
      let pos2 := if len ≤ pos1 then pos1 - len else pos1
      let i1 := i + 1
      if i1 % nqEffDelta len sf = 0 then
        let alpha1 := alpha - alpha / nqAlphaDecrement sf
        let radius1 := radius - radius / (initialRadiusDecrement : ℚ)
        let radz := jsShr radius1 initialRadiusBiasShift
        let rad1 := if radz ≤ 1 then 0 else radz.toNat
        let st3 := { st2 with radiusPower := computeRadiusPower st2.radiusPower alpha1 rad1 }
        learnLoop pixels sf step len fuel st3 alpha1 radius1 rad1 pos2 i1
      else
        learnLoop pixels sf step len fuel st2 alpha radius rad pos2 i1

/-- `learn()`. -/
def learn (pixels : List ℕ) (sf : ℕ) (st : NQState) : NQState :=
  let len := pixels.length
  let alpha : ℚ := ((initialAlpha : ℕ) : ℚ)
  let radius : ℚ := ((initialRadius : ℕ) : ℚ)
  let radz := jsShr radius initialRadiusBiasShift
  let rad := if radz ≤ 1 then 0 else radz.toNat
  let st1 := { st with radiusPower := computeRadiusPower st.radiusPower alpha rad }
  learnLoop pixels sf (nqStep len) len (nqTrainCount len sf) st1 alpha radius rad 0 0

/-- `unBiasNetwork()`: shift every colour coordinate right by 4 (a float64
`>>=`, i.e. `ToInt32` then arithmetic shift) and record the position in
`tag`. -/
def unBiasNetwork (nets : List Neuron) : List Neuron :=
  nets.enum.map (fun p =>
    ⟨((jsShr p.2.c0 networkBiasShift : ℤ) : ℚ),
     ((jsShr p.2.c1 networkBiasShift : ℤ) : ℚ),
     ((jsShr p.2.c2 networkBiasShift : ℤ) : ℚ),
     (p.1 : ℚ)⟩)

/-- Swap entries `i` and `j` of the network (the component-wise swap of
`buildIndexes`). -/
def swapNeurons (nets : List Neuron) (i j : ℕ) : List Neuron :=
  let p := nets.getD i default
  let q := nets.getD j default
  (nets.set i q).set j p

/-- One pass of the selection sort in `buildIndexes`: find the smallest green
in `i..255`, swap it into position `i`, and update `networkIndex`,
`previouscol`, `startpos`.  The greens are integer-valued after un-biasing,
which the fill loop's bound `j < smallval` relies on. -/
def buildIndexesStep (acc : List Neuron × List ℤ × ℕ × ℕ) (i : ℕ) :
    List Neuron × List ℤ × ℕ × ℕ :=
  let (nets, netIndex, previouscol, startpos) := acc
  let p := nets.getD i default
  let small := (List.enumFrom (i + 1) (nets.drop (i + 1))).foldl
    (fun (sp : ℕ × ℚ) jq => if jq.2.c1 < sp.2 then (jq.1, jq.2.c1) else sp) (i, p.c1)
  let (smallpos, smallval) := small
  let nets1 := if i ≠ smallpos then swapNeurons nets i smallpos else nets
  if smallval ≠ (previouscol : ℚ) then
    let netIndex1 := netIndex.set previouscol ((((startpos + i) >>> 1 : ℕ) : ℤ))
    let sv := (truncQ smallval).toNat
    let netIndex2 := (List.range' (previouscol + 1) (sv - (previouscol + 1))).foldl
      (fun l j => l.set j ((i : ℕ) : ℤ)) netIndex1
    (nets1, netIndex2, sv, i)
  else (nets1, netIndex, previouscol, startpos)

/-- `buildIndexes()`: selection-sort the network by green and fill
`networkIndex`. -/
def buildIndexes (nets : List Neuron) (netIndex : List ℤ) : List Neuron × List ℤ :=
  let res := (List.range maximumColorsSize).foldl buildIndexesStep (nets, netIndex, 0, 0)
  let (nets1, netIndex1, previouscol, startpos) := res
  let netIndex2 := netIndex1.set previouscol
    ((((startpos + maximumColorsPosition) >>> 1 : ℕ) : ℤ))
  let netIndex3 := (List.range' (previouscol + 1) (maximumColorsSize - (previouscol + 1))).foldl
    (fun l j => l.set j ((maximumColorsPosition : ℕ) : ℤ)) netIndex2
  (nets1, netIndex3)

/-- The `index` array of `getColorMap`: `index[networks[i][3]] = i` for
ascending `i` (a typed-array store, so out-of-range tags are dropped). -/
def buildTagIndex (nets : List Neuron) : List ℕ :=
  (List.range maximumColorsSize).foldl
    (fun idx i =>
      let t := truncQ ((nets.getD i default).tag)
      if 0 ≤ t ∧ t < 256 then idx.set t.toNat i else idx)
    (List.replicate maximumColorsSize 0)

/-- The 768 values that the `getColorMap` loop writes (`map[k++] = …` for
`l = 0..255`, three components each, enumerating neurons by tag). -/
def getColorMapWrites (nets : List Neuron) : List ℚ :=
  (List.range maximumColorsSize).flatMap (fun l =>
    let n := nets.getD ((buildTagIndex nets).getD l 0) default
    [n.c0, n.c1, n.c2])

/-- `getColorMap()`: the destination is `new Float64Array(maximumColorsSize)`
— 256 slots — so of the 768 written values only those at offsets `< 256`
land; typed-array stores past the end are dropped. -/
def getColorMap (nets : List Neuron) : List ℚ :=
  (getColorMapWrites nets).take maximumColorsSize

/-- The ascending scan of `lookupRGB` (`for i = index; i < 256; ++i`), with
its break on the signed green distance and its two `continue` early-outs.
Fuel `maximumColorsSize` covers every possible iteration count. -/
def lookupUp (nets : List Neuron) (b g r : ℚ) : ℕ → ℕ → ℚ → ℚ → ℚ × ℚ
  | 0, _, bestD, best => (bestD, best)
  | fuel + 1, i, bestD, best =>
      if i < maximumColorsSize then
        let n := nets.getD i default
        let d1 := n.c1 - g
        if bestD ≤ d1 then (bestD, best)
        else
          let d2 := if d1 < 0 then -d1 else d1
          let d3 := d2 + |n.c0 - b|
          if bestD ≤ d3 then lookupUp nets b g r fuel (i + 1) bestD best
          else
            let d4 := d3 + |n.c2 - r|
            if bestD ≤ d4 then lookupUp nets b g r fuel (i + 1) bestD best
            else lookupUp nets b g r fuel (i + 1) d4 n.tag
      else (bestD, best)

/-- The descending scan of `lookupRGB` (`for j = index − 1; j >= 0; --j`). -/
def lookupDown (nets : List Neuron) (b g r : ℚ) : ℕ → ℤ → ℚ → ℚ → ℚ
  | 0, _, _, best => best
  | fuel + 1, j, bestD, best =>
      if 0 ≤ j then
        let n := nets.getD j.toNat default
        let d1 := g - n.c1
        if bestD ≤ d1 then best
        else
          let d2 := if d1 < 0 then -d1 else d1
          let d3 := d2 + |n.c0 - b|
          if bestD ≤ d3 then lookupDown nets b g r fuel (j - 1) bestD best
          else
            let d4 := d3 + |n.c2 - r|
            if bestD ≤ d4 then lookupDown nets b g r fuel (j - 1) bestD best
            else lookupDown nets b g r fuel (j - 1) d4 n.tag
      else best

/-- `lookupRGB(b, g, r)`: start at `networkIndex[g]`, scan up then down,
return the best neuron's `tag` (initially `-1`, best distance 1000). -/
def lookupRGB (nets : List Neuron) (netIndex : List ℤ) (b g r : ℕ) : ℚ :=
  let index := (netIndex.getD g 0).toNat
  let up := lookupUp nets b g r maximumColorsSize index 1000 (-1)
  lookupDown nets b g r maximumColorsSize ((index : ℤ) - 1) up.1 up.2

/-- Result of the `NeuQuant` constructor: init, learn, unbias, index build.
`visited` carries the learning loop's ghost trace through. -/
structure NQ where
  networks : List Neuron
  networkIndex : List ℤ
  visited : List ℕ

/-- The `NeuQuant` constructor pipeline. -/
def NeuQuantMake (pixels : List ℕ) (sf : ℕ) : NQ :=
  let st1 := learn pixels sf nqInit
  let nets1 := unBiasNetwork st1.networks
  let res := buildIndexes nets1 st1.networkIndex
  ⟨res.1, res.2, st1.visited⟩

/-!
## GIF encoder (`src/lib/GifEncoder.ts`)
-/

/-- `PALETTE_SIZE = 7`. -/
def PALETTE_SIZE : ℕ := 7

/-- The bytes of `"GIF89a"`. -/
def GIF_HEADER : List ℕ := [0x47, 0x49, 0x46, 0x38, 0x39, 0x61]

/-- The bytes of `"NETSCAPE2.0"`. -/
def NETSCAPE_HEADER : List ℕ :=
  [0x4e, 0x45, 0x54, 0x53, 0x43, 0x41, 0x50, 0x45, 0x32, 0x2e, 0x30]

/-- State of a `GifEncoder` instance.  `out` is the concatenation of all
bytes written to the byte buffer (the buffer is flushed to the streams
between frames, which only concatenates; the model keeps the whole
stream).  `usedEntry` is the sparse boolean array (absent entries read as
`false`).  `colorDepth` is 0 while the source holds `null`. -/
structure GifEncoderState where
  width : ℕ
  height : ℕ
  transparent : Option ℤ
  transparentIndex : ℕ
  repeatCount : ℤ
  delay : ℤ
  disposalMode : ℤ
  sample : ℤ
  firstFrame : Bool
  started : Bool
  usedEntry : ℕ → Bool
  indexedPixels : List ℕ
  colorPalette : List ℚ
  colorDepth : ℕ
  out : List ℕ

/-- The `GifEncoder` constructor and field initialisers. -/
def mkGifEncoder (w h : ℕ) : GifEncoderState :=
  { width := w, height := h, transparent := none, transparentIndex := 0,
    repeatCount := -1, delay := 0, disposalMode := -1, sample := 10,
    firstFrame := true, started := false, usedEntry := fun _ => false,
    indexedPixels := [], colorPalette := [], colorDepth := 0, out := [] }

/-- `setDelay(ms)`: `delay = Math.round(ms / 10)` (`round` rounds half toward
`+∞`, as `Math.round` does). -/
def setDelay (enc : GifEncoderState) (ms : ℚ) : GifEncoderState :=
  { enc with delay := round (ms / 10) }

/-- `setFramerate(fps)`. -/
def setFramerate (enc : GifEncoderState) (fps : ℚ) : GifEncoderState :=
  { enc with delay := round (100 / fps) }

/-- `setDispose(code)`: only non-negative codes are stored. -/
def setDispose (enc : GifEncoderState) (code : ℤ) : GifEncoderState :=
  if 0 ≤ code then { enc with disposalMode := code } else enc

/-- `setRepeat(n)`. -/
def setRepeat (enc : GifEncoderState) (n : ℤ) : GifEncoderState :=
  { enc with repeatCount := n }

/-- `setTransparent(color)`. -/
def setTransparent (enc : GifEncoderState) (c : Option ℤ) : GifEncoderState :=
  { enc with transparent := c }

/-- `setQuality(q)`: values below 1 are clamped to 1; no upper clamp. -/
def setQuality (enc : GifEncoderState) (q : ℤ) : GifEncoderState :=
  { enc with sample := if q < 1 then 1 else q }

/-- `getImagePixels()`: copy the R, G, B bytes of each RGBA pixel, row major.
Out-of-range reads of the image produce `undefined`, which the `Uint8Array`
store turns into 0. -/
def getImagePixels (w h : ℕ) (image : List ℕ) : List ℕ :=
  (List.range h).flatMap (fun i => (List.range w).flatMap (fun j =>
    let b := i * w * 4 + j * 4
    [image.getD b 0, image.getD (b + 1) 0, image.getD (b + 2) 0]))

/-- `colorPalette[i] & 0xff` (`ToInt32` then mask). -/
def byteAtPalette (palette : List ℚ) (i : ℕ) : ℤ :=
  (truncQ (palette.getD i 0)).emod 256

/-- The scan of `findClosest` (`for i = 0; i < len;` with three `i++` reads
per pass, so `i` advances by 3; `index = i / 3`).  Fuel `len + 1` covers
every iteration. -/
def findClosestLoop (palette : List ℚ) (used : ℕ → Bool) (r g b : ℤ) :
    ℕ → ℕ → ℕ → ℤ → ℕ
  | 0, _, minIdx, _ => minIdx
  | fuel + 1, i, minIdx, minD =>
      if i < palette.length then
        let index := i / 3
        let dr := r - byteAtPalette palette i
        let dg := g - byteAtPalette palette (i + 1)
        let db := b - byteAtPalette palette (i + 2)
        let d := dr * dr + dg * dg + db * db
        if used index = true ∧ d < minD then
          findClosestLoop palette used r g b fuel (i + 3) index d
        else
          findClosestLoop palette used r g b fuel (i + 3) minIdx minD
      else minIdx

/-- `findClosest(color)`: squared-distance scan over the palette restricted
to `usedEntry`; `minimumIndex` starts at 0.  The channel extractions
`(color & 0xff0000) >> 16` etc. are int32 two's-complement operations,
i.e. floor division and Euclidean remainder. -/
def findClosest (palette : List ℚ) (used : ℕ → Bool) (color : ℤ) : ℕ :=
  let r := (Int.fdiv color 65536).emod 256
  let g := (Int.fdiv color 256).emod 256
  let b := color.emod 256
  findClosestLoop palette used r g b (palette.length + 1) 0 0 (256 * 256 * 256)

/-- `analyzePixels()`: build the palette, map every pixel through
`lookupRGB`, mark `usedEntry`, then (if a transparent colour is set) pick
`transparentIndex` and overwrite the indexed pixel of every source pixel
with alpha 0.  The alpha test `image[4j+3] === 0` reads `undefined` out of
range, which is not 0; the model uses an out-of-range default of 256.  The
call site passes `(r, g, b)` to the parameter list `(b, g, r)`, so the first
argument receives the red byte. -/
def analyzePixels (enc : GifEncoderState) (image : List ℕ) : GifEncoderState :=
  let pixels := getImagePixels enc.width enc.height image
  let pixelCount := pixels.length / 3
  let nq := NeuQuantMake pixels enc.sample.toNat
  let palette := getColorMap nq.networks
  let mapRes := (List.range pixelCount).foldl
    (fun (acc : List ℕ × (ℕ → Bool)) j =>
      let r := pixels.getD (3 * j) 0 &&& 255
      let g := pixels.getD (3 * j + 1) 0 &&& 255
      let b := pixels.getD (3 * j + 2) 0 &&& 255
      let idx := truncQ (lookupRGB nq.networks nq.networkIndex r g b)
      let used1 : ℕ → Bool :=
        if 0 ≤ idx then (fun n => if n = idx.toNat then true else acc.2 n) else acc.2
      (acc.1 ++ [(idx.emod 256).toNat], used1))
    ([], enc.usedEntry)
  let enc1 := { enc with indexedPixels := mapRes.1, usedEntry := mapRes.2,
                         colorPalette := palette, colorDepth := 8 }
  match enc1.transparent with
  | none => enc1
  | some c =>
      let ti := findClosest palette mapRes.2 c
      let rewritten := (List.range pixelCount).map (fun j =>
        if image.getD (4 * j + 3) 256 = 0 then ti else mapRes.1.getD j 0)
      { enc1 with transparentIndex := ti, indexedPixels := rewritten }

/-- `writeShort(v)`: `v & 0xff` then `(v >> 8) & 0xff` (int32 semantics). -/
def writeShort (v : ℤ) : List ℕ :=
  [(v.emod 256).toNat, ((Int.fdiv v 256).emod 256).toNat]

/-- `writeGraphicControlExtension()` as the byte list it appends. -/
def writeGraphicControlExtension (enc : GifEncoderState) : List ℕ :=
  let td : ℕ × ℤ :=
    match enc.transparent with
    | none => (0, 0)
    | some _ => (1, 2)
  let dispose : ℤ := if 0 ≤ enc.disposalMode then enc.disposalMode.emod 8 else td.2
  let fields : ℕ := (dispose.toNat <<< 2) ||| td.1
  [0x21, 0xf9, 4, fields] ++ writeShort enc.delay ++ [enc.transparentIndex % 256, 0]

/-- `writeImageDescriptor()` as the byte list it appends. -/
def writeImageDescriptor (enc : GifEncoderState) : List ℕ :=
  [0x2c] ++ writeShort 0 ++ writeShort 0 ++
    writeShort (enc.width : ℤ) ++ writeShort (enc.height : ℤ) ++
    [if enc.firstFrame then 0 else 0x80 ||| PALETTE_SIZE]

/-- `writeLogicalScreenDescriptor()` as the byte list it appends. -/
def writeLogicalScreenDescriptor (enc : GifEncoderState) : List ℕ :=
  writeShort (enc.width : ℤ) ++ writeShort (enc.height : ℤ) ++
    [0x80 ||| 0x70 ||| PALETTE_SIZE, 0, 0]

/-- `writeNetscapeExtension()` as the byte list it appends. -/
def writeNetscapeExtension (enc : GifEncoderState) : List ℕ :=
  [0x21, 0xff, 0x0b] ++ NETSCAPE_HEADER ++ [0x03, 0x01] ++
    writeShort enc.repeatCount ++ [0]

/-- `writePalette()`: the palette values (as unsigned bytes) padded with
zeros to `3 · 256` bytes. -/
def writePalette (enc : GifEncoderState) : List ℕ :=
  enc.colorPalette.map byteOfQ ++
    List.replicate (3 * 256 - enc.colorPalette.length) 0

/-- `writePixels()`: LZW-encode `width·height` reads of `indexedPixels`. -/
def writePixels (enc : GifEncoderState) : List ℕ :=
  lzwEncodeStream enc.colorDepth
    ((List.range (enc.width * enc.height)).map (fun k => enc.indexedPixels.getD k 0))

/-- `addFrame(imageData)`: analyze, then write the first-frame blocks (LSD,
GCT, optional NETSCAPE), the GCE, the image descriptor, the LCT for
non-first frames, and the LZW data; finally clear `firstFrame`. -/
def addFrame (enc : GifEncoderState) (image : List ℕ) : GifEncoderState :=
  let enc1 := analyzePixels enc image
  let enc2 :=
    if enc1.firstFrame then
      { enc1 with out := enc1.out ++ writeLogicalScreenDescriptor enc1 ++ writePalette enc1 ++
          (if 0 ≤ enc1.repeatCount then writeNetscapeExtension enc1 else []) }
    else enc1
  let enc3 := { enc2 with out := enc2.out ++ writeGraphicControlExtension enc2 }
  let enc4 := { enc3 with out := enc3.out ++ writeImageDescriptor enc3 }
  let enc5 := if enc4.firstFrame = false then { enc4 with out := enc4.out ++ writePalette enc4 }
              else enc4
  let enc6 := { enc5 with out := enc5.out ++ writePixels enc5 }
  { enc6 with firstFrame := false }

/-- `start()`. -/
def startEncoder (enc : GifEncoderState) : GifEncoderState :=
  { enc with out := enc.out ++ GIF_HEADER, started := true }

/-- `finish()`. -/
def finishEncoder (enc : GifEncoderState) : GifEncoderState :=
  { enc with out := enc.out ++ [0x3b] }

/-- The pixel byte offsets visited by a learning loop that starts at
position 0 and advances by `step`, wrapping once past `len`. -/
def scanPositions (len step : ℕ) : ℕ → ℕ → List ℕ
  | 0, _ => []
  | k + 1, pos =>
      let pos1 := pos + step
      pos :: scanPositions len step k (if len ≤ pos1 then pos1 - len else pos1)

/-- The byte stream that `addFrame` appends for a first frame: logical
screen descriptor, global colour table, the NETSCAPE extension iff
`repeat >= 0`, graphic control extension, image descriptor, and the LZW
image data. -/
def expectedFirstFrameBytes (enc : GifEncoderState) (image : List ℕ) : List ℕ :=
  let e := analyzePixels enc image
  writeLogicalScreenDescriptor e ++ writePalette e ++
    (if 0 ≤ e.repeatCount then writeNetscapeExtension e else []) ++
    writeGraphicControlExtension e ++ writeImageDescriptor e ++ writePixels e

/-- A byte list that parses as a sequence of GIF data sub-blocks: each block
is a length byte in `1..255` followed by that many data bytes. -/
inductive SubBlocked : List ℕ → Prop where
  | nil : SubBlocked []
  | block (data : List ℕ) (rest : List ℕ) (h1 : 1 ≤ data.length)
      (h2 : data.length ≤ 255) (hr : SubBlocked rest) :
      SubBlocked (data.length :: data ++ rest)

/-- The packet-framing invariant of the LZW encoder state: everything
flushed so far is a well-formed sub-block sequence, and the staging packet
holds at most 253 bytes. -/
def PacketInv (s : LZWState) : Prop :=
  SubBlocked s.out ∧ s.accum.length ≤ 253

/-- The 12-bit-code invariant of the LZW encoder state: the pending prefix
code, every dictionary code, and every code handed to the bit packer are
below `4096`, the free-entry counter never passes `4096`, and the two
reserved codes have their fixed values. -/
def TraceInv (s : LZWState) : Prop :=
  s.code < 4096 ∧ (∀ i, s.codes.getD i 0 < 4096) ∧ s.firstUnusedEntry ≤ 4096 ∧
    s.clearCode = 256 ∧ s.eofCode = 257 ∧ ∀ c ∈ s.trace, c < 4096

end Gifenc

namespace Gifenc

/-!
## Proofs about the LZW encoder
-/


theorem SubBlocked.append {xs ys : List ℕ} (hx : SubBlocked xs) (hy : SubBlocked ys) :
    SubBlocked (xs ++ ys) := by
  induction hx with
  | nil => simpa using hy
  | block data rest h1 h2 _ ih =>
      have := SubBlocked.block data (rest ++ ys) h1 h2 ih
      simpa [List.append_assoc] using this

theorem flushPacket_code (s : LZWState) : (flushPacket s).code = s.code := by
  unfold flushPacket; split <;> rfl

theorem flushPacket_codes (s : LZWState) : (flushPacket s).codes = s.codes := by
  unfold flushPacket; split <;> rfl

theorem flushPacket_hashes (s : LZWState) : (flushPacket s).hashes = s.hashes := by
  unfold flushPacket; split <;> rfl

theorem flushPacket_firstUnusedEntry (s : LZWState) :
    (flushPacket s).firstUnusedEntry = s.firstUnusedEntry := by
  unfold flushPacket; split <;> rfl

theorem flushPacket_clearCode (s : LZWState) : (flushPacket s).clearCode = s.clearCode := by
  unfold flushPacket; split <;> rfl

theorem flushPacket_eofCode (s : LZWState) : (flushPacket s).eofCode = s.eofCode := by
  unfold flushPacket; split <;> rfl

theorem flushPacket_trace (s : LZWState) : (flushPacket s).trace = s.trace := by
  unfold flushPacket; split <;> rfl

theorem addCharacter_code (c : ℕ) (s : LZWState) : (addCharacter c s).code = s.code := by
  unfold addCharacter; dsimp only; split
  · rw [flushPacket_code]
  · rfl

theorem addCharacter_codes (c : ℕ) (s : LZWState) : (addCharacter c s).codes = s.codes := by
  unfold addCharacter; dsimp only; split
  · rw [flushPacket_codes]
  · rfl

theorem addCharacter_hashes (c : ℕ) (s : LZWState) : (addCharacter c s).hashes = s.hashes := by
  unfold addCharacter; dsimp only; split
  · rw [flushPacket_hashes]
  · rfl

theorem addCharacter_firstUnusedEntry (c : ℕ) (s : LZWState) :
    (addCharacter c s).firstUnusedEntry = s.firstUnusedEntry := by
  unfold addCharacter; dsimp only; split
  · rw [flushPacket_firstUnusedEntry]
  · rfl

theorem addCharacter_clearCode (c : ℕ) (s : LZWState) :
    (addCharacter c s).clearCode = s.clearCode := by
  unfold addCharacter; dsimp only; split
  · rw [flushPacket_clearCode]
  · rfl

theorem addCharacter_eofCode (c : ℕ) (s : LZWState) :
    (addCharacter c s).eofCode = s.eofCode := by
  unfold addCharacter; dsimp only; split
  · rw [flushPacket_eofCode]
  · rfl

theorem addCharacter_trace (c : ℕ) (s : LZWState) : (addCharacter c s).trace = s.trace := by
  unfold addCharacter; dsimp only; split
  · rw [flushPacket_trace]
  · rfl

theorem drain8_code (f : ℕ) (s : LZWState) : (drain8 f s).code = s.code := by
  induction f generalizing s with
  | zero => rfl
  | succ f ih =>
      rw [drain8]; split
      · rw [ih]; exact addCharacter_code _ _
      · rfl

theorem drain8_codes (f : ℕ) (s : LZWState) : (drain8 f s).codes = s.codes := by
  induction f generalizing s with
  | zero => rfl
  | succ f ih =>
      rw [drain8]; split
      · rw [ih]; exact addCharacter_codes _ _
      · rfl

theorem drain8_hashes (f : ℕ) (s : LZWState) : (drain8 f s).hashes = s.hashes := by
  induction f generalizing s with
  | zero => rfl
  | succ f ih =>
      rw [drain8]; split
      · rw [ih]; exact addCharacter_hashes _ _
      · rfl

theorem drain8_firstUnusedEntry (f : ℕ) (s : LZWState) :
    (drain8 f s).firstUnusedEntry = s.firstUnusedEntry := by
  induction f generalizing s with
  | zero => rfl
  | succ f ih =>
      rw [drain8]; split
      · rw [ih]; exact addCharacter_firstUnusedEntry _ _
      · rfl

theorem drain8_clearCode (f : ℕ) (s : LZWState) : (drain8 f s).clearCode = s.clearCode := by
  induction f generalizing s with
  | zero => rfl
  | succ f ih =>
      rw [drain8]; split
      · rw [ih]; exact addCharacter_clearCode _ _
      · rfl

theorem drain8_eofCode (f : ℕ) (s : LZWState) : (drain8 f s).eofCode = s.eofCode := by
  induction f generalizing s with
  | zero => rfl
  | succ f ih =>
      rw [drain8]; split
      · rw [ih]; exact addCharacter_eofCode _ _
      · rfl

theorem drain8_trace (f : ℕ) (s : LZWState) : (drain8 f s).trace = s.trace := by
  induction f generalizing s with
  | zero => rfl
  | succ f ih =>
      rw [drain8]; split
      · rw [ih]; exact addCharacter_trace _ _
      · rfl

theorem drainRest_code (f : ℕ) (s : LZWState) : (drainRest f s).code = s.code := by
  induction f generalizing s with
  | zero => rfl
  | succ f ih =>
      rw [drainRest]; split
      · rw [ih]; exact addCharacter_code _ _
      · rfl

theorem drainRest_codes (f : ℕ) (s : LZWState) : (drainRest f s).codes = s.codes := by
  induction f generalizing s with
  | zero => rfl
  | succ f ih =>
      rw [drainRest]; split
      · rw [ih]; exact addCharacter_codes _ _
      · rfl

theorem drainRest_hashes (f : ℕ) (s : LZWState) : (drainRest f s).hashes = s.hashes := by
  induction f generalizing s with
  | zero => rfl
  | succ f ih =>
      rw [drainRest]; split
      · rw [ih]; exact addCharacter_hashes _ _
      · rfl

theorem drainRest_firstUnusedEntry (f : ℕ) (s : LZWState) :
    (drainRest f s).firstUnusedEntry = s.firstUnusedEntry := by
  induction f generalizing s with
  | zero => rfl
  | succ f ih =>
      rw [drainRest]; split
      · rw [ih]; exact addCharacter_firstUnusedEntry _ _
      · rfl

theorem drainRest_clearCode (f : ℕ) (s : LZWState) :
    (drainRest f s).clearCode = s.clearCode := by
  induction f generalizing s with
  | zero => rfl
  | succ f ih =>
      rw [drainRest]; split
      · rw [ih]; exact addCharacter_clearCode _ _
      · rfl

theorem drainRest_eofCode (f : ℕ) (s : LZWState) : (drainRest f s).eofCode = s.eofCode := by
  induction f generalizing s with
  | zero => rfl
  | succ f ih =>
      rw [drainRest]; split
      · rw [ih]; exact addCharacter_eofCode _ _
      · rfl

theorem drainRest_trace (f : ℕ) (s : LZWState) : (drainRest f s).trace = s.trace := by
  induction f generalizing s with
  | zero => rfl
  | succ f ih =>
      rw [drainRest]; split
      · rw [ih]; exact addCharacter_trace _ _
      · rfl

theorem adjustBits_code (s : LZWState) : (adjustBits s).code = s.code := by
  unfold adjustBits; dsimp only; split
  · split <;> rfl
  · rfl

theorem adjustBits_codes (s : LZWState) : (adjustBits s).codes = s.codes := by
  unfold adjustBits; dsimp only; split
  · split <;> rfl
  · rfl

theorem adjustBits_hashes (s : LZWState) : (adjustBits s).hashes = s.hashes := by
  unfold adjustBits; dsimp only; split
  · split <;> rfl
  · rfl

theorem adjustBits_firstUnusedEntry (s : LZWState) :
    (adjustBits s).firstUnusedEntry = s.firstUnusedEntry := by
  unfold adjustBits; dsimp only; split
  · split <;> rfl
  · rfl

theorem adjustBits_clearCode (s : LZWState) : (adjustBits s).clearCode = s.clearCode := by
  unfold adjustBits; dsimp only; split
  · split <;> rfl
  · rfl

theorem adjustBits_eofCode (s : LZWState) : (adjustBits s).eofCode = s.eofCode := by
  unfold adjustBits; dsimp only; split
  · split <;> rfl
  · rfl

theorem adjustBits_trace (s : LZWState) : (adjustBits s).trace = s.trace := by
  unfold adjustBits; dsimp only; split
  · split <;> rfl
  · rfl

theorem adjustBits_out (s : LZWState) : (adjustBits s).out = s.out := by
  unfold adjustBits; dsimp only; split
  · split <;> rfl
  · rfl

theorem adjustBits_accum (s : LZWState) : (adjustBits s).accum = s.accum := by
  unfold adjustBits; dsimp only; split
  · split <;> rfl
  · rfl

theorem processOutput_code (c : ℕ) (s : LZWState) : (processOutput c s).code = s.code := by
  unfold processOutput; dsimp only
  split <;> split <;>
    simp only [flushPacket_code, drainRest_code, adjustBits_code, drain8_code]

theorem processOutput_codes (c : ℕ) (s : LZWState) : (processOutput c s).codes = s.codes := by
  unfold processOutput; dsimp only
  split <;> split <;>
    simp only [flushPacket_codes, drainRest_codes, adjustBits_codes, drain8_codes]

theorem processOutput_hashes (c : ℕ) (s : LZWState) :
    (processOutput c s).hashes = s.hashes := by
  unfold processOutput; dsimp only
  split <;> split <;>
    simp only [flushPacket_hashes, drainRest_hashes, adjustBits_hashes, drain8_hashes]

theorem processOutput_firstUnusedEntry (c : ℕ) (s : LZWState) :
    (processOutput c s).firstUnusedEntry = s.firstUnusedEntry := by
  unfold processOutput; dsimp only
  split <;> split <;>
    simp only [flushPacket_firstUnusedEntry, drainRest_firstUnusedEntry,
      adjustBits_firstUnusedEntry, drain8_firstUnusedEntry]

theorem processOutput_clearCode (c : ℕ) (s : LZWState) :
    (processOutput c s).clearCode = s.clearCode := by
  unfold processOutput; dsimp only
  split <;> split <;>
    simp only [flushPacket_clearCode, drainRest_clearCode, adjustBits_clearCode, drain8_clearCode]

theorem processOutput_eofCode (c : ℕ) (s : LZWState) :
    (processOutput c s).eofCode = s.eofCode := by
  unfold processOutput; dsimp only
  split <;> split <;>
    simp only [flushPacket_eofCode, drainRest_eofCode, adjustBits_eofCode, drain8_eofCode]

theorem processOutput_trace (c : ℕ) (s : LZWState) :
    (processOutput c s).trace = s.trace ++ [c] := by
  unfold processOutput; dsimp only
  split <;> split <;>
    simp only [flushPacket_trace, drainRest_trace, adjustBits_trace, drain8_trace]

theorem packetInv_flushPacket {s : LZWState} (h1 : SubBlocked s.out)
    (h2 : s.accum.length ≤ 254) : PacketInv (flushPacket s) := by
  unfold flushPacket
  split
  · next hemp => exact ⟨h1, by simp [List.isEmpty_iff.mp hemp]⟩
  · next hemp =>
      refine ⟨?_, by simp⟩
      have hne : s.accum ≠ [] := by simpa [List.isEmpty_iff] using hemp
      have hpos : 1 ≤ s.accum.length := List.length_pos.mpr hne
      have hb := SubBlocked.block s.accum [] hpos (by omega) SubBlocked.nil
      have := SubBlocked.append h1 (by simpa using hb)
      simpa using this

theorem packetInv_addCharacter {s : LZWState} (c : ℕ) (h : PacketInv s) :
    PacketInv (addCharacter c s) := by
  obtain ⟨h1, h2⟩ := h
  unfold addCharacter
  dsimp only
  split
  · exact packetInv_flushPacket (s := { s with accum := s.accum ++ [c] }) h1
      (by simp only [List.length_append, List.length_cons, List.length_nil]; omega)
  · next hlt =>
      refine ⟨h1, ?_⟩
      simp only [List.length_append, List.length_cons, List.length_nil] at hlt ⊢
      omega

theorem packetInv_drain8 {s : LZWState} (f : ℕ) (h : PacketInv s) :
    PacketInv (drain8 f s) := by
  induction f generalizing s with
  | zero => exact h
  | succ f ih =>
      rw [drain8]
      split
      · exact ih (packetInv_addCharacter _ h)
      · exact h

theorem packetInv_drainRest {s : LZWState} (f : ℕ) (h : PacketInv s) :
    PacketInv (drainRest f s) := by
  induction f generalizing s with
  | zero => exact h
  | succ f ih =>
      rw [drainRest]
      split
      · exact ih (packetInv_addCharacter _ h)
      · exact h

theorem packetInv_adjustBits {s : LZWState} (h : PacketInv s) :
    PacketInv (adjustBits s) := by
  refine ⟨?_, ?_⟩
  · rw [adjustBits_out]; exact h.1
  · rw [adjustBits_accum]; exact h.2

theorem packetInv_eofFlush {x : LZWState} (k : ℕ) (h : PacketInv x) :
    PacketInv (flushPacket (drainRest k x)) := by
  refine packetInv_flushPacket ?_ ?_
  · exact (packetInv_drainRest k h).1
  · exact le_trans (packetInv_drainRest k h).2 (by omega)

theorem packetInv_processOutput {s : LZWState} (c : ℕ) (h : PacketInv s) :
    PacketInv (processOutput c s) := by
  unfold processOutput
  dsimp only
  split <;> split
  · exact packetInv_eofFlush _ (packetInv_adjustBits (packetInv_drain8 _ h))
  · exact packetInv_adjustBits (packetInv_drain8 _ h)
  · exact packetInv_eofFlush _ (packetInv_adjustBits (packetInv_drain8 _ h))
  · exact packetInv_adjustBits (packetInv_drain8 _ h)

theorem packetInv_clearCodeTable {s : LZWState} (h : PacketInv s) :
    PacketInv (clearCodeTable s) := by
  unfold clearCodeTable
  dsimp only
  exact packetInv_processOutput _ h

theorem packetInv_missPath {s : LZWState} (c hash j : ℕ) (h : PacketInv s) :
    PacketInv (missPath s c hash j) := by
  unfold missPath
  dsimp only
  split
  · exact packetInv_processOutput _ h
  · exact packetInv_clearCodeTable (packetInv_processOutput _ h)

theorem packetInv_lzwStep {s : LZWState} (c : ℕ) (h : PacketInv s) :
    PacketInv (lzwStep s c) := by
  unfold lzwStep
  dsimp only
  split
  · exact h
  · split
    · split
      · exact h
      · exact packetInv_missPath _ _ _ h
    · exact packetInv_missPath _ _ _ h

theorem packetInv_foldl {l : List ℕ} {s : LZWState} (h : PacketInv s) :
    PacketInv (l.foldl lzwStep s) := by
  induction l generalizing s with
  | nil => exact h
  | cons c cs ih => exact ih (packetInv_lzwStep c h)

theorem packetInv_lzwCompress (initialBits p0 : ℕ) (rest : List ℕ) :
    PacketInv (lzwCompress initialBits p0 rest) := by
  unfold lzwCompress
  dsimp only
  have h0 : PacketInv (compressInit initialBits p0) := ⟨SubBlocked.nil, by simp [compressInit]⟩
  exact packetInv_processOutput _ (packetInv_processOutput _ (packetInv_foldl
    (packetInv_processOutput _ h0)))

theorem getD_set_lt {l : List ℕ} {v : ℕ} (hv : v < 4096)
    (hl : ∀ k, l.getD k 0 < 4096) (j i : ℕ) : (l.set j v).getD i 0 < 4096 := by
  induction l generalizing i j with
  | nil => exact hl i
  | cons a as ih =>
      cases j with
      | zero =>
          cases i with
          | zero => simpa using hv
          | succ i => simpa using hl (i + 1)
      | succ j =>
          cases i with
          | zero => simpa using hl 0
          | succ i =>
              have := ih (fun k => by simpa using hl (k + 1)) j i
              simpa using this

theorem getD_replicate_nat {n i : ℕ} {a : ℕ} :
    (List.replicate n a).getD i 0 = if i < n then a else 0 := by
  induction n generalizing i with
  | zero => simp
  | succ n ih =>
      cases i with
      | zero => simp [List.replicate_succ]
      | succ i =>
          rw [List.replicate_succ]
          simpa [List.getD] using ih (i := i)

theorem traceInv_processOutput {s : LZWState} {c : ℕ} (hc : c < 4096)
    (h : TraceInv s) : TraceInv (processOutput c s) := by
  obtain ⟨h1, h2, h3, h4, h5, h6⟩ := h
  refine ⟨by rw [processOutput_code]; exact h1,
          fun i => by rw [processOutput_codes]; exact h2 i,
          by rw [processOutput_firstUnusedEntry]; exact h3,
          by rw [processOutput_clearCode]; exact h4,
          by rw [processOutput_eofCode]; exact h5, ?_⟩
  intro x hx
  rw [processOutput_trace] at hx
  rcases List.mem_append.mp hx with hx | hx
  · exact h6 x hx
  · simp only [List.mem_singleton] at hx
    omega

theorem traceInv_clearCodeTable {s : LZWState} (h : TraceInv s) :
    TraceInv (clearCodeTable s) := by
  unfold clearCodeTable
  dsimp only
  obtain ⟨h1, h2, h3, h4, h5, h6⟩ := h
  refine traceInv_processOutput ?_ ⟨h1, h2, ?_, h4, h5, h6⟩
  · show s.clearCode < 4096
    rw [h4]; decide
  · show s.clearCode + 2 ≤ 4096
    rw [h4]; decide

theorem traceInv_missPath {s : LZWState} {c : ℕ} (hc : c < 4096) (hash j : ℕ)
    (h : TraceInv s) : TraceInv (missPath s c hash j) := by
  unfold missPath
  dsimp only
  obtain ⟨g1, g2, g3, g4, g5, g6⟩ := traceInv_processOutput h.1 h
  split
  · next hlt =>
      have h4096 : (1 : ℕ) <<< BITS = 4096 := by decide
      rw [h4096] at hlt
      exact ⟨hc, fun k => getD_set_lt hlt g2 j k,
        by show (processOutput s.code s).firstUnusedEntry + 1 ≤ 4096; omega, g4, g5, g6⟩
  · exact traceInv_clearCodeTable ⟨hc, g2, g3, g4, g5, g6⟩

theorem traceInv_lzwStep {s : LZWState} (c : ℕ) (h : TraceInv s) :
    TraceInv (lzwStep s c) := by
  obtain ⟨h1, h2, h3, h4, h5, h6⟩ := h
  have hc : c &&& 255 < 4096 := lt_of_le_of_lt Nat.and_le_right (by decide)
  unfold lzwStep
  dsimp only
  split
  · exact ⟨h2 _, h2, h3, h4, h5, h6⟩
  · split
    · split
      · exact ⟨h2 _, h2, h3, h4, h5, h6⟩
      · exact traceInv_missPath hc _ _ ⟨h1, h2, h3, h4, h5, h6⟩
    · exact traceInv_missPath hc _ _ ⟨h1, h2, h3, h4, h5, h6⟩

theorem traceInv_foldl {l : List ℕ} {s : LZWState} (h : TraceInv s) :
    TraceInv (l.foldl lzwStep s) := by
  induction l generalizing s with
  | nil => exact h
  | cons c cs ih => exact ih (traceInv_lzwStep c h)

theorem traceInv_compressInit (p0 : ℕ) : TraceInv (compressInit 9 p0) := by
  refine ⟨?_, ?_, ?_, rfl, rfl, ?_⟩
  · show p0 &&& 255 < 4096
    exact lt_of_le_of_lt Nat.and_le_right (by decide)
  · intro k
    show (List.replicate HASH_SIZE 0).getD k 0 < 4096
    rw [getD_replicate_nat]
    split <;> decide
  · show (1 <<< 8) + 2 ≤ 4096
    decide
  · intro c hc
    simp only [compressInit] at hc
    simp at hc

theorem traceInv_lzwCompress (p0 : ℕ) (rest : List ℕ) :
    TraceInv (lzwCompress 9 p0 rest) := by
  unfold lzwCompress
  dsimp only
  have h0 := traceInv_compressInit p0
  have h1 := traceInv_processOutput (c := (compressInit 9 p0).clearCode)
    (by rw [h0.2.2.2.1]; decide) h0
  have h2 := traceInv_foldl (l := rest) h1
  have h3 := traceInv_processOutput h2.1 h2
  exact traceInv_processOutput (by rw [h3.2.2.2.2.1]; decide) h3

/-- C2: for every indexed-pixel stream (the encoder always supplies at least
one pixel) and `color_depth = 8`, `encode` writes one byte equal to
`max(2, color_depth) = 8`, then the compressed data packetized into
sub-blocks whose length byte is in `1..255` (`SubBlocked`), and finally a
single `0x00` terminator byte. -/
theorem lzw_encode_framing_c2 (p0 : ℕ) (rest : List ℕ) :
    ∃ body, lzwEncode 8 p0 rest = 8 :: body ++ [0] ∧ SubBlocked body :=
  ⟨(lzwCompress (max 2 8 + 1) p0 rest).out, rfl,
    (packetInv_lzwCompress (max 2 8 + 1) p0 rest).1⟩

/-- C3: with `init_code_size = 8` (initial bits 9), every code the
compressor hands to the bit packer — recorded in the ghost `trace` — is
strictly below `4096 = 1 << 12`, and the free-entry counter never passes
4096: at the cap the dictionary is cleared instead of allocating a wider
code. -/
theorem lzw_codes_below_4096_c3 (p0 : ℕ) (rest : List ℕ) :
    (∀ c ∈ (lzwCompress 9 p0 rest).trace, c < 4096) ∧
      (lzwCompress 9 p0 rest).firstUnusedEntry ≤ 4096 :=
  ⟨(traceInv_lzwCompress p0 rest).2.2.2.2.2, (traceInv_lzwCompress p0 rest).2.2.1⟩

/-- Witness for C3 at a concrete input: the clear code 256 is in the trace
of the one-pixel stream `[0]`, and the theorem bounds it by 4096. -/
theorem lzw_codes_below_4096_c3_witness :
    256 ∈ (lzwCompress 9 0 []).trace ∧ 256 < 4096 :=
  ⟨by decide, (lzw_codes_below_4096_c3 0 []).1 256 (by decide)⟩

/-- C6: in the compressor set up by `encode` with `color_depth = 8`
(`initialBits = max(2, 8) + 1 = 9`), the reserved codes are
`clear_code = 1 << 8 = 256` and `eof_code = 257`, the next free dictionary
code starts at 258, and it is still 258 after the initial clear code is
emitted, so the first string inserted receives code 258. -/
theorem lzw_reserved_codes_c6 (p0 : ℕ) :
    (compressInit (max 2 8 + 1) p0).clearCode = 256 ∧
      (compressInit (max 2 8 + 1) p0).eofCode = 257 ∧
      (compressInit (max 2 8 + 1) p0).firstUnusedEntry = 258 ∧
      (processOutput (compressInit (max 2 8 + 1) p0).clearCode
        (compressInit (max 2 8 + 1) p0)).firstUnusedEntry = 258 :=
  ⟨rfl, rfl, rfl, by rw [processOutput_firstUnusedEntry]; rfl⟩


/-!
## Proofs about the GIF encoder
-/

theorem setQuality_sample_ge (enc : GifEncoderState) (q : ℤ) :
    1 ≤ (setQuality enc q).sample := by
  unfold setQuality
  dsimp only
  split <;> omega

theorem foldl_setQuality_sample_ge {qs : List ℤ} {enc : GifEncoderState}
    (h : 1 ≤ enc.sample) : 1 ≤ (qs.foldl setQuality enc).sample := by
  induction qs generalizing enc with
  | nil => exact h
  | cons q rest ih => exact ih (setQuality_sample_ge enc q)

/-- C8 (amended): after any sequence of `setQuality` calls the stored sample
is at least 1, and any call with an argument below 1 — `setQuality(0)`
included — is equivalent to `setQuality(1)`.  (There is no upper clamp: the
counterexample shows `setQuality(31)` stores 31.) -/
theorem quality_clamp_c8 (w h : ℕ) (qs : List ℤ) :
    1 ≤ ((qs.foldl setQuality (mkGifEncoder w h)).sample) ∧
      ∀ (enc : GifEncoderState) (q : ℤ), q < 1 → setQuality enc q = setQuality enc 1 := by
  constructor
  · exact foldl_setQuality_sample_ge (by show (1 : ℤ) ≤ 10; decide)
  · intro enc q hq
    unfold setQuality
    rw [if_pos hq, if_neg (by omega : ¬ (1 : ℤ) < 1)]

/-- Witness for C8 (amended) at a concrete input. -/
theorem quality_clamp_c8_witness :
    1 ≤ ((([-5] : List ℤ).foldl setQuality (mkGifEncoder 2 2)).sample) ∧
      ((-5 : ℤ) < 1 ∧ setQuality (mkGifEncoder 2 2) (-5) = setQuality (mkGifEncoder 2 2) 1) :=
  ⟨(quality_clamp_c8 2 2 [-5]).1, by decide,
   (quality_clamp_c8 2 2 [-5]).2 (mkGifEncoder 2 2) (-5) (by decide)⟩

/-- Counterexample for C8 as stated: `setQuality(31)` stores a sample of 31,
outside the claimed range `[1, 30]`. -/
theorem quality_clamp_c8_cex :
    (setQuality (mkGifEncoder 1 1) 31).sample = 31 ∧
      ¬ ((setQuality (mkGifEncoder 1 1) 31).sample ≤ 30) := by
  constructor
  · rfl
  · decide

theorem flatMap_congr {α β : Type} {l : List α} {f g : α → List β}
    (h : ∀ a ∈ l, f a = g a) : l.flatMap f = l.flatMap g := by
  induction l with
  | nil => rfl
  | cons a as ih =>
      simp only [List.flatMap_cons]
      rw [h a (by simp), ih (fun x hx => h x (by simp [hx]))]

theorem getD_take_pad {image : List ℕ} {L n : ℕ} (hn : n < L) :
    (image.take L ++ List.replicate (L - image.length) 0).getD n 0 = image.getD n 0 := by
  rcases Nat.lt_or_ge n image.length with hlt | hge
  · have hleft : n < (image.take L).length := by
      rw [List.length_take L image]
      omega
    rw [List.getD_eq_getElem?_getD, List.getElem?_append_left hleft,
        List.getElem?_take, List.getD_eq_getElem?_getD]
    simp [hn]
  · have hlen : (image.take L).length = min L image.length := List.length_take L image
    have hlen2 : (image.take L).length ≤ n := by omega
    rw [List.getD_eq_getElem?_getD, List.getElem?_append_right hlen2]
    rw [List.getElem?_replicate, hlen]
    have hmin : min L image.length = image.length := by omega
    rw [hmin]
    have hidx : n - image.length < L - image.length := by omega
    rw [if_pos hidx]
    rw [List.getD_eq_getElem?_getD, List.getElem?_eq_none (by omega)]
    rfl

/-- C9 (amended): `addFrame` performs no length validation.  A frame whose
byte length differs from `4·w·h` is processed anyway: out-of-range RGBA
reads behave as zero, so the extraction treats the input exactly as if it
were truncated or zero-padded to `4·w·h` bytes. -/
theorem frame_size_c9 (w h : ℕ) (image : List ℕ) :
    getImagePixels w h image =
      getImagePixels w h
        (image.take (4 * w * h) ++ List.replicate (4 * w * h - image.length) 0) := by
  unfold getImagePixels
  refine flatMap_congr (fun i hi => ?_)
  refine flatMap_congr (fun j hj => ?_)
  rw [List.mem_range] at hi hj
  dsimp only
  have hb : i * w * 4 + j * 4 + 2 < 4 * w * h := by
    have hA : (i + 1) * w ≤ h * w := Nat.mul_le_mul_right w (Nat.succ_le_of_lt hi)
    have hA2 : i * w + w ≤ h * w := by
      rw [Nat.succ_mul] at hA
      omega
    have hcomm : h * w = w * h := Nat.mul_comm h w
    have hcomm2 : 4 * w * h = 4 * (w * h) := by ring
    omega
  rw [getD_take_pad (by omega), getD_take_pad (by omega), getD_take_pad (by omega)]

/-- Counterexample for C9 as stated: a 2×1 frame requires 8 RGBA bytes, but
a 4-byte input is encoded without any error — the missing pixel reads as
black (three zero bytes). -/
theorem frame_size_c9_cex :
    ([1, 2, 3, 4] : List ℕ).length ≠ 4 * (2 * 1) ∧
      getImagePixels 2 1 [1, 2, 3, 4] = [1, 2, 3, 0, 0, 0] := by
  constructor
  · decide
  · decide

theorem analyzePixels_transparent (enc : GifEncoderState) (image : List ℕ) :
    (analyzePixels enc image).transparent = enc.transparent := by
  unfold analyzePixels
  dsimp only
  split <;> rfl

theorem analyzePixels_disposalMode (enc : GifEncoderState) (image : List ℕ) :
    (analyzePixels enc image).disposalMode = enc.disposalMode := by
  unfold analyzePixels
  dsimp only
  split <;> rfl

theorem analyzePixels_delay (enc : GifEncoderState) (image : List ℕ) :
    (analyzePixels enc image).delay = enc.delay := by
  unfold analyzePixels
  dsimp only
  split <;> rfl

theorem analyzePixels_firstFrame (enc : GifEncoderState) (image : List ℕ) :
    (analyzePixels enc image).firstFrame = enc.firstFrame := by
  unfold analyzePixels
  dsimp only
  split <;> rfl

theorem analyzePixels_repeatCount (enc : GifEncoderState) (image : List ℕ) :
    (analyzePixels enc image).repeatCount = enc.repeatCount := by
  unfold analyzePixels
  dsimp only
  split <;> rfl

theorem analyzePixels_out (enc : GifEncoderState) (image : List ℕ) :
    (analyzePixels enc image).out = enc.out := by
  unfold analyzePixels
  dsimp only
  split <;> rfl

theorem addFrame_indexedPixels (enc : GifEncoderState) (image : List ℕ) :
    (addFrame enc image).indexedPixels = (analyzePixels enc image).indexedPixels := by
  unfold addFrame
  dsimp only
  repeat' split
  all_goals rfl

theorem addFrame_transparentIndex (enc : GifEncoderState) (image : List ℕ) :
    (addFrame enc image).transparentIndex = (analyzePixels enc image).transparentIndex := by
  unfold addFrame
  dsimp only
  repeat' split
  all_goals rfl

theorem getImagePixels_length (w h : ℕ) (image : List ℕ) :
    (getImagePixels w h image).length = 3 * (w * h) := by
  unfold getImagePixels
  rw [List.length_flatMap]
  simp only [Function.comp_def]
  have hinner : ∀ i ∈ List.range h,
      ((List.range w).flatMap (fun j =>
        let b := i * w * 4 + j * 4
        [image.getD b 0, image.getD (b + 1) 0, image.getD (b + 2) 0])).length = 3 * w := by
    intro i _
    rw [List.length_flatMap]
    simp only [Function.comp_def]
    have : ∀ j ∈ List.range w,
        (let b := i * w * 4 + j * 4
         [image.getD b 0, image.getD (b + 1) 0, image.getD (b + 2) 0]).length = 3 := by
      intro j _
      rfl
    rw [List.map_congr_left this]
    simp [List.map_const', mul_comm]
  rw [List.map_congr_left hinner]
  simp [List.map_const', mul_comm, mul_assoc, mul_left_comm]

theorem getD_map_range {f : ℕ → ℕ} {n j : ℕ} (h : j < n) :
    ((List.range n).map f).getD j 0 = f j := by
  rw [List.getD_eq_getElem?_getD, List.getElem?_map, List.getElem?_range h]
  rfl

theorem or_one_of_lt_8 (d : ℕ) (hd : d < 8) : (d <<< 2) ||| 1 = 4 * d + 1 := by
  interval_cases d <;> decide

theorem analyzePixels_alpha_rewrite (enc : GifEncoderState) (image : List ℕ) (c : ℤ)
    (hc : enc.transparent = some c) (j : ℕ) (hj : j < enc.width * enc.height)
    (ha : image.getD (4 * j + 3) 256 = 0) :
    (analyzePixels enc image).indexedPixels.getD j 0 =
      (analyzePixels enc image).transparentIndex := by
  unfold analyzePixels
  dsimp only
  split
  · rename_i hnone
    rw [hc] at hnone
    cases hnone
  · rename_i c' hsome
    dsimp only
    have hj3 : j < (getImagePixels enc.width enc.height image).length / 3 := by
      rw [getImagePixels_length, Nat.mul_div_cancel_left _ (by decide : 0 < 3)]
      exact hj
    rw [getD_map_range hj3, if_pos ha]

theorem writeGCE_some (e : GifEncoderState) (c : ℤ) (he : e.transparent = some c) :
    writeGraphicControlExtension e =
      [0x21, 0xf9, 4,
        ((if 0 ≤ e.disposalMode then e.disposalMode.emod 8 else 2).toNat <<< 2) ||| 1] ++
        writeShort e.delay ++ [e.transparentIndex % 256, 0] := by
  unfold writeGraphicControlExtension
  rw [he]

/-- C4: when a transparent colour is set, after `addFrame` every input pixel
whose alpha byte is 0 has its indexed byte equal to `transparentIndex`, and
the Graphic Control Extension written for the frame carries a packed byte
with transparent-colour flag 1 and disposal field 2 unless overridden via
`setDispose`. -/
theorem transparency_rewrite_c4 (enc : GifEncoderState) (image : List ℕ) (c : ℤ)
    (hc : enc.transparent = some c) :
    (∀ j, j < enc.width * enc.height → image.getD (4 * j + 3) 256 = 0 →
        (addFrame enc image).indexedPixels.getD j 0 =
          (addFrame enc image).transparentIndex) ∧
    writeGraphicControlExtension (analyzePixels enc image) =
      [0x21, 0xf9, 4,
        4 * (if 0 ≤ enc.disposalMode then (enc.disposalMode.emod 8).toNat else 2) + 1] ++
        writeShort enc.delay ++
        [(analyzePixels enc image).transparentIndex % 256, 0] := by
  constructor
  · intro j hj ha
    rw [addFrame_indexedPixels, addFrame_transparentIndex]
    exact analyzePixels_alpha_rewrite enc image c hc j hj ha
  · rw [writeGCE_some (analyzePixels enc image) c
      (by rw [analyzePixels_transparent]; exact hc)]
    rw [analyzePixels_disposalMode, analyzePixels_delay]
    have hD : (if (0:ℤ) ≤ enc.disposalMode then enc.disposalMode.emod 8 else 2).toNat =
        (if (0:ℤ) ≤ enc.disposalMode then (enc.disposalMode.emod 8).toNat else 2) := by
      by_cases hd : (0:ℤ) ≤ enc.disposalMode <;> simp [hd]
    have hlt : (if (0:ℤ) ≤ enc.disposalMode then (enc.disposalMode.emod 8).toNat else 2) < 8 := by
      by_cases hd : (0:ℤ) ≤ enc.disposalMode
      · simp only [if_pos hd]
        have h1 : enc.disposalMode.emod 8 < 8 := Int.emod_lt_of_pos _ (by decide)
        have h2 : 0 ≤ enc.disposalMode.emod 8 := Int.emod_nonneg _ (by decide)
        omega
      · simp only [if_neg hd]
        decide
    rw [hD, or_one_of_lt_8 _ hlt]

theorem transparency_rewrite_c4_witness :
    (setTransparent (mkGifEncoder 1 1) (some 0)).transparent = some 0 ∧
    ((∀ j, j < (setTransparent (mkGifEncoder 1 1) (some 0)).width *
          (setTransparent (mkGifEncoder 1 1) (some 0)).height →
        ([0, 0, 0, 0] : List ℕ).getD (4 * j + 3) 256 = 0 →
        (addFrame (setTransparent (mkGifEncoder 1 1) (some 0)) [0, 0, 0, 0]).indexedPixels.getD j 0 =
          (addFrame (setTransparent (mkGifEncoder 1 1) (some 0)) [0, 0, 0, 0]).transparentIndex) ∧
      writeGraphicControlExtension
          (analyzePixels (setTransparent (mkGifEncoder 1 1) (some 0)) [0, 0, 0, 0]) =
        [0x21, 0xf9, 4,
          4 * (if 0 ≤ (setTransparent (mkGifEncoder 1 1) (some 0)).disposalMode then
            ((setTransparent (mkGifEncoder 1 1) (some 0)).disposalMode.emod 8).toNat else 2) + 1] ++
          writeShort (setTransparent (mkGifEncoder 1 1) (some 0)).delay ++
          [(analyzePixels (setTransparent (mkGifEncoder 1 1) (some 0)) [0, 0, 0, 0]).transparentIndex %
            256, 0]) :=
  ⟨rfl, transparency_rewrite_c4 (setTransparent (mkGifEncoder 1 1) (some 0)) [0, 0, 0, 0] 0 rfl⟩

theorem writeLogicalScreenDescriptor_upd (e : GifEncoderState) (b : Bool) (o : List ℕ) :
    writeLogicalScreenDescriptor { e with firstFrame := b, out := o } =
      writeLogicalScreenDescriptor e := rfl

theorem writePalette_upd (e : GifEncoderState) (b : Bool) (o : List ℕ) :
    writePalette { e with firstFrame := b, out := o } = writePalette e := rfl

theorem writeNetscapeExtension_upd (e : GifEncoderState) (b : Bool) (o : List ℕ) :
    writeNetscapeExtension { e with firstFrame := b, out := o } =
      writeNetscapeExtension e := rfl

theorem writeGraphicControlExtension_upd (e : GifEncoderState) (b : Bool) (o : List ℕ) :
    writeGraphicControlExtension { e with firstFrame := b, out := o } =
      writeGraphicControlExtension e := rfl

theorem writePixels_upd (e : GifEncoderState) (b : Bool) (o : List ℕ) :
    writePixels { e with firstFrame := b, out := o } = writePixels e := rfl

theorem writeImageDescriptor_true (e : GifEncoderState) (o : List ℕ)
    (he : e.firstFrame = true) :
    writeImageDescriptor { e with firstFrame := true, out := o } =
      writeImageDescriptor e := by
  unfold writeImageDescriptor
  rw [he]

theorem addFrame_out_firstFrame (enc : GifEncoderState) (image : List ℕ)
    (h : enc.firstFrame = true) :
    (addFrame enc image).out = enc.out ++ expectedFirstFrameBytes enc image := by
  unfold addFrame expectedFirstFrameBytes
  dsimp only
  simp [analyzePixels_firstFrame, analyzePixels_out, h,
    writeLogicalScreenDescriptor_upd, writePalette_upd,
    writeNetscapeExtension_upd, writeGraphicControlExtension_upd,
    writeImageDescriptor_true, writePixels_upd, List.append_assoc]

/-- C7: on a first frame the bytes appended by `addFrame` are the logical
screen descriptor, the global colour table, the NETSCAPE 2.0 application
extension exactly when the repeat value at that time is `≥ 0`, the graphic
control extension, the image descriptor and the LZW data; the NETSCAPE
block is the 19-byte sequence `21 FF 0B "NETSCAPE2.0" 03 01 <repeat u16 LE> 00`,
and `writeShort` stores any value in `[0, 65536)` little-endian. -/
theorem netscape_loop_c7 (enc : GifEncoderState) (image : List ℕ)
    (h : enc.firstFrame = true) :
    (addFrame enc image).out = enc.out ++ expectedFirstFrameBytes enc image ∧
    expectedFirstFrameBytes enc image =
      writeLogicalScreenDescriptor (analyzePixels enc image) ++
      writePalette (analyzePixels enc image) ++
      (if 0 ≤ enc.repeatCount then writeNetscapeExtension (analyzePixels enc image) else []) ++
      writeGraphicControlExtension (analyzePixels enc image) ++
      writeImageDescriptor (analyzePixels enc image) ++
      writePixels (analyzePixels enc image) ∧
    writeNetscapeExtension (analyzePixels enc image) =
      [0x21, 0xff, 0x0b, 0x4e, 0x45, 0x54, 0x53, 0x43, 0x41, 0x50, 0x45, 0x32,
        0x2e, 0x30, 0x03, 0x01] ++ writeShort enc.repeatCount ++ [0] ∧
    (writeNetscapeExtension (analyzePixels enc image)).length = 19 ∧
    (∀ r : ℤ, 0 ≤ r → r < 65536 → writeShort r = [r.toNat % 256, r.toNat / 256]) := by
  refine ⟨addFrame_out_firstFrame enc image h, ?_, ?_, ?_, ?_⟩
  · unfold expectedFirstFrameBytes
    dsimp only
    rw [analyzePixels_repeatCount]
  · unfold writeNetscapeExtension NETSCAPE_HEADER
    rw [analyzePixels_repeatCount]
    rfl
  · unfold writeNetscapeExtension NETSCAPE_HEADER writeShort
    simp
  · intro r h1 h2
    unfold writeShort
    rw [Int.fdiv_eq_ediv _ (by decide)]
    have e1 : (r.emod 256).toNat = r.toNat % 256 := by
      show (r % 256).toNat = r.toNat % 256
      omega
    have e2 : ((r / 256).emod 256).toNat = r.toNat / 256 := by
      show ((r / 256) % 256).toNat = r.toNat / 256
      omega
    rw [e1, e2]

theorem netscape_loop_c7_witness :
    (mkGifEncoder 1 1).firstFrame = true ∧
    ((addFrame (mkGifEncoder 1 1) []).out =
        (mkGifEncoder 1 1).out ++ expectedFirstFrameBytes (mkGifEncoder 1 1) [] ∧
      expectedFirstFrameBytes (mkGifEncoder 1 1) [] =
        writeLogicalScreenDescriptor (analyzePixels (mkGifEncoder 1 1) []) ++
        writePalette (analyzePixels (mkGifEncoder 1 1) []) ++
        (if 0 ≤ (mkGifEncoder 1 1).repeatCount then
          writeNetscapeExtension (analyzePixels (mkGifEncoder 1 1) []) else []) ++
        writeGraphicControlExtension (analyzePixels (mkGifEncoder 1 1) []) ++
        writeImageDescriptor (analyzePixels (mkGifEncoder 1 1) []) ++
        writePixels (analyzePixels (mkGifEncoder 1 1) []) ∧
      writeNetscapeExtension (analyzePixels (mkGifEncoder 1 1) []) =
        [0x21, 0xff, 0x0b, 0x4e, 0x45, 0x54, 0x53, 0x43, 0x41, 0x50, 0x45, 0x32,
          0x2e, 0x30, 0x03, 0x01] ++ writeShort (mkGifEncoder 1 1).repeatCount ++ [0] ∧
      (writeNetscapeExtension (analyzePixels (mkGifEncoder 1 1) [])).length = 19 ∧
      (∀ r : ℤ, 0 ≤ r → r < 65536 → writeShort r = [r.toNat % 256, r.toNat / 256])) :=
  ⟨rfl, netscape_loop_c7 (mkGifEncoder 1 1) [] rfl⟩

theorem contest_visited (b g r : ℚ) (st : NQState) :
    (contest b g r st).2.visited = st.visited := by
  unfold contest
  dsimp only

theorem scanPositions_length (len step : ℕ) :
    ∀ (fuel pos : ℕ), (scanPositions len step fuel pos).length = fuel := by
  intro fuel
  induction fuel with
  | zero => intro pos; rfl
  | succ n ih =>
      intro pos
      rw [scanPositions]
      simp [ih]

theorem learnLoop_visited (pixels : List ℕ) (sf step len : ℕ) :
    ∀ (fuel : ℕ) (st : NQState) (alpha radius : ℚ) (rad pos i : ℕ),
      (learnLoop pixels sf step len fuel st alpha radius rad pos i).visited =
        st.visited ++ scanPositions len step fuel pos := by
  intro fuel
  induction fuel with
  | zero =>
      intro st alpha radius rad pos i
      simp [learnLoop, scanPositions]
  | succ n ih =>
      intro st alpha radius rad pos i
      rw [learnLoop, scanPositions]
      dsimp only
      split
      · rw [ih]
        simp [contest_visited, List.append_assoc]
      · rw [ih]
        simp [contest_visited, List.append_assoc]

theorem learn_visited (pixels : List ℕ) (sf : ℕ) (st : NQState) :
    (learn pixels sf st).visited =
      st.visited ++ scanPositions pixels.length (nqStep pixels.length)
        (nqTrainCount pixels.length sf) 0 := by
  unfold learn
  dsimp only
  rw [learnLoop_visited]

/-- C5 (amended): for an input shorter than `minimumPictureBytes` the step
is forced to 3, but the `sampleFactorial = 1` override comes after
`samplePixels` (and `alphaDecrement`) were computed from the caller's
factor: the loop runs `⌈len / (3·sf)⌉` iterations, visiting the byte
offsets `0, 3, 6, …` (wrapping past `len`); it performs `len / 3`
iterations — one per pixel — only when the caller's factor is 1. -/
theorem learning_loop_c5 (pixels : List ℕ) (sf : ℕ)
    (h : pixels.length < minimumPictureBytes) :
    nqStep pixels.length = 3 ∧
    (learn pixels sf nqInit).visited =
      scanPositions pixels.length 3 (nqTrainCount pixels.length sf) 0 ∧
    (learn pixels sf nqInit).visited.length = nqTrainCount pixels.length sf ∧
    (sf = 1 → (3 : ℕ) ∣ pixels.length →
      nqTrainCount pixels.length sf = pixels.length / 3) := by
  have hstep : nqStep pixels.length = 3 := by
    unfold nqStep
    rw [if_pos h]
  have hv : nqInit.visited = [] := rfl
  refine ⟨hstep, ?_, ?_, ?_⟩
  · rw [learn_visited, hstep, hv, List.nil_append]
  · rw [learn_visited, hv, List.nil_append, scanPositions_length]
  · intro h1 hdvd
    subst h1
    obtain ⟨k, hk⟩ := hdvd
    rw [hk]
    unfold nqTrainCount nqSamplePixels
    have hq : ((3 * k : ℕ) : ℚ) / ((3 * 1 : ℕ) : ℚ) = (k : ℚ) := by
      push_cast
      exact mul_div_cancel_left₀ _ (by norm_num)
    rw [hq, Int.ceil_natCast]
    omega

/-- C5 counterexample: a 30-byte input (shorter than `minimumPictureBytes`)
encoded with caller sample factor 10 trains for `⌈30 / 30⌉ = 1` iteration,
not `30 / 3 = 10`: the training-iteration count does depend on the sample
factor supplied by the caller. -/
theorem learning_loop_c5_cex :
    (List.replicate 30 0).length < minimumPictureBytes ∧
    (learn (List.replicate 30 0) 10 nqInit).visited.length = 1 ∧
    (learn (List.replicate 30 0) 10 nqInit).visited.length ≠
      (List.replicate 30 0).length / 3 := by
  have hlen : (List.replicate 30 0 : List ℕ).length = 30 := by simp
  have hcount : nqTrainCount 30 10 = 1 := by
    unfold nqTrainCount nqSamplePixels
    norm_num
  have hv : (learn (List.replicate 30 0) 10 nqInit).visited.length = 1 := by
    rw [learn_visited]
    simp only [hlen, List.length_append, scanPositions_length, hcount]
    rfl
  refine ⟨by decide, hv, ?_⟩
  rw [hv, hlen]
  decide

theorem learning_loop_c5_witness :
    (List.replicate 3 0 : List ℕ).length < minimumPictureBytes ∧
    (nqStep (List.replicate 3 0 : List ℕ).length = 3 ∧
      (learn (List.replicate 3 0) 1 nqInit).visited =
        scanPositions (List.replicate 3 0 : List ℕ).length 3
          (nqTrainCount (List.replicate 3 0 : List ℕ).length 1) 0 ∧
      (learn (List.replicate 3 0) 1 nqInit).visited.length =
        nqTrainCount (List.replicate 3 0 : List ℕ).length 1 ∧
      (1 = 1 → (3 : ℕ) ∣ (List.replicate 3 0 : List ℕ).length →
        nqTrainCount (List.replicate 3 0 : List ℕ).length 1 =
          (List.replicate 3 0 : List ℕ).length / 3)) :=
  ⟨by decide, learning_loop_c5 (List.replicate 3 0) 1 (by decide)⟩

theorem flatMap_blocks {α : Type} (f : ℕ → List α) (hf : ∀ i, (f i).length = 3) :
    ∀ (n s l : ℕ), l < n →
      (((List.range' s n).flatMap f).drop (3 * l)).take 3 = f (s + l) := by
  intro n
  induction n with
  | zero => intro s l hl; omega
  | succ m ih =>
      intro s l hl
      rw [List.range'_succ s m 1, List.flatMap_cons]
      cases l with
      | zero =>
          rw [Nat.mul_zero, List.drop_zero, Nat.add_zero]
          rw [show (3 : ℕ) = (f s).length from (hf s).symm]
          exact List.take_left (f s) _
      | succ k =>
          rw [show 3 * (k + 1) = (f s).length + 3 * k by rw [hf s]; ring]
          rw [List.drop_append]
          rw [show s + (k + 1) = (s + 1) + k by ring]
          exact ih (s + 1) k (by omega)

theorem getColorMapWrites_length (nets : List Neuron) :
    (getColorMapWrites nets).length = 768 := by
  unfold getColorMapWrites
  rw [List.length_flatMap]
  simp only [Function.comp_def]
  have h : ∀ l ∈ List.range maximumColorsSize,
      ((fun l =>
        let n := nets.getD ((buildTagIndex nets).getD l 0) default
        [n.c0, n.c1, n.c2]) l).length = 3 := fun _ _ => rfl
  rw [List.map_congr_left h]
  rw [List.map_const', List.length_range, List.sum_replicate, smul_eq_mul]
  decide

theorem getColorMap_length (nets : List Neuron) :
    (getColorMap nets).length = 256 := by
  unfold getColorMap
  rw [List.length_take, getColorMapWrites_length]
  decide

theorem getColorMapWrites_entry (nets : List Neuron) (l : ℕ)
    (hl : l < maximumColorsSize) :
    ((getColorMapWrites nets).drop (3 * l)).take 3 =
      [(nets.getD ((buildTagIndex nets).getD l 0) default).c0,
       (nets.getD ((buildTagIndex nets).getD l 0) default).c1,
       (nets.getD ((buildTagIndex nets).getD l 0) default).c2] := by
  unfold getColorMapWrites
  rw [List.range_eq_range' maximumColorsSize]
  have := flatMap_blocks
    (fun l =>
      let n := nets.getD ((buildTagIndex nets).getD l 0) default
      [n.c0, n.c1, n.c2]) (fun _ => rfl) maximumColorsSize 0 l hl
  rw [Nat.zero_add] at this
  exact this

/-- C1 (amended): `getColorMap` emits a 768-value write sequence in which
entry `l` occupies offsets `3l, 3l+1, 3l+2` and entries are enumerated by
ascending neuron tag (the inverse of the post-sort positions), but the
destination array is allocated with only `maximumColorsSize = 256` slots,
so the returned palette is the 256-value prefix of that sequence, not a
768-byte palette. -/
theorem quantizer_palette_c1 (nets : List Neuron) :
    (getColorMapWrites nets).length = 768 ∧
    getColorMap nets = (getColorMapWrites nets).take 256 ∧
    (getColorMap nets).length = 256 ∧
    (∀ l, l < 256 →
      ((getColorMapWrites nets).drop (3 * l)).take 3 =
        [(nets.getD ((buildTagIndex nets).getD l 0) default).c0,
         (nets.getD ((buildTagIndex nets).getD l 0) default).c1,
         (nets.getD ((buildTagIndex nets).getD l 0) default).c2]) :=
  ⟨getColorMapWrites_length nets, rfl, getColorMap_length nets,
   fun l hl => getColorMapWrites_entry nets l hl⟩

/-- C1 counterexample: for the 1-pixel green input `[0, 255, 0]` at sample
factor 1 the palette returned by `getColorMap` holds 256 values, not the
768 the specification promises. -/
theorem quantizer_palette_c1_cex :
    (getColorMap (NeuQuantMake [0, 255, 0] 1).networks).length = 256 ∧
    (getColorMap (NeuQuantMake [0, 255, 0] 1).networks).length ≠ 768 := by
  have h := getColorMap_length (NeuQuantMake [0, 255, 0] 1).networks
  refine ⟨h, ?_⟩
  rw [h]
  decide

theorem quantizer_palette_c1_witness :
    (getColorMapWrites []).length = 768 ∧
    getColorMap [] = (getColorMapWrites []).take 256 ∧
    (getColorMap []).length = 256 ∧
    (∀ l, l < 256 →
      ((getColorMapWrites []).drop (3 * l)).take 3 =
        [(([] : List Neuron).getD ((buildTagIndex []).getD l 0) default).c0,
         (([] : List Neuron).getD ((buildTagIndex []).getD l 0) default).c1,
         (([] : List Neuron).getD ((buildTagIndex []).getD l 0) default).c2]) :=
  quantizer_palette_c1 []
